import Mathlib

/-!
Verification development for the Fixed Ratio Trading client library
(`frt-js-lib`).  The JavaScript/TypeScript sources are shallowly embedded:

* a `Buffer` / 32-byte account address is a `List Nat` of byte values;
* a JavaScript string is a `List Nat` of UTF-16 code units (JS strings are
  arbitrary code-unit sequences, so `Char` is not an adequate carrier);
* `BN` amounts are natural numbers (the library only ever builds them from
  unsigned amounts), with ratio fields that the validators compare against
  zero modelled as integers;
* the Solana SDK's `findProgramAddressSync` (a SHA-256 based search that is
  deterministic in its seed list) is an explicit function parameter
  `fpa : List (List Nat) → List Nat × Nat` of every derivation, so theorems
  quantify over it;
* IEEE-754 binary64 numbers are modelled exactly: a JavaScript arithmetic
  step is the true rational result rounded to 53 bits (round to nearest,
  ties to even), see `fl` below.

Validation error strings are kept as Lean `String` literals.
-/

namespace FRT

/-- UTF-16 code units (all ASCII here) of a Lean string literal; used for
label constants and seed tags. -/
def strCU (s : String) : List Nat := s.data.map Char.toNat

/-- Bytes of an ASCII string literal (`Buffer.from(tag)` for seed tags). -/
def strBytes (s : String) : List Nat := s.data.map Char.toNat

/-- `toArrayLike(Buffer, 'le', 8)`: 8 little-endian bytes.  Faithful for
values below `2^64`; larger values make `bn.js` throw, so the theorems that
use it carry a `< 2^64` bound. -/
def le64 (n : Nat) : List Nat :=
  [n % 256, n / 256 % 256, n / 256 ^ 2 % 256, n / 256 ^ 3 % 256,
   n / 256 ^ 4 % 256, n / 256 ^ 5 % 256, n / 256 ^ 6 % 256, n / 256 ^ 7 % 256]

/-- `writeUInt32LE`: 4 little-endian bytes (values in range in every use). -/
def le32 (n : Nat) : List Nat :=
  [n % 256, n / 256 % 256, n / 256 ^ 2 % 256, n / 256 ^ 3 % 256]

/-- The value little-endian bytes denote (to state that the encoders
above really carry their argument). -/
def leVal (bytes : List Nat) : Nat := bytes.foldr (fun b acc => b + 256 * acc) 0

/-! ### JavaScript string comparison

`bufA < bufB` on Node `Buffer`s coerces both sides with `ToPrimitive`,
which calls `Buffer.prototype.toString()` — a UTF-8 decode with U+FFFD
replacement — and then compares the two strings by UTF-16 code units. -/

/-- JS `<` on strings: lexicographic order on UTF-16 code-unit sequences. -/
def jsStrLt : List Nat → List Nat → Bool
  | [], [] => false
  | [], _ :: _ => true
  | _ :: _, [] => false
  | a :: as, b :: bs => if a < b then true else if b < a then false else jsStrLt as bs

/-! ### UTF-8 decoding (`Buffer.prototype.toString('utf8')`)

WHATWG decoder: invalid input is replaced by U+FFFD per maximal subpart;
`utf8DecodeOne` consumes one scalar value (or one replacement) from the
head of the byte list and returns the decoded code point plus the rest. -/

/-- Decode one code point from `b :: rest`; returns `(codePoint, rest')`. -/
def utf8DecodeOne (b : Nat) (rest : List Nat) : Nat × List Nat :=
  if b ≤ 0x7F then (b, rest)
  else if 0xC2 ≤ b ∧ b ≤ 0xDF then
    match rest with
    | c :: r =>
      if 0x80 ≤ c ∧ c ≤ 0xBF then ((b - 0xC0) * 64 + (c - 0x80), r)
      else (0xFFFD, rest)
    | [] => (0xFFFD, [])
  else if 0xE0 ≤ b ∧ b ≤ 0xEF then
    -- three-byte lead; the admissible range of the second byte depends on b
    let lo2 := if b = 0xE0 then 0xA0 else 0x80
    let hi2 := if b = 0xED then 0x9F else 0xBF
    match rest with
    | c :: r =>
      if lo2 ≤ c ∧ c ≤ hi2 then
        match r with
        | d :: r2 =>
          if 0x80 ≤ d ∧ d ≤ 0xBF then
            ((b - 0xE0) * 4096 + (c - 0x80) * 64 + (d - 0x80), r2)
          else (0xFFFD, r)
        | [] => (0xFFFD, [])
      else (0xFFFD, rest)
    | [] => (0xFFFD, [])
  else if 0xF0 ≤ b ∧ b ≤ 0xF4 then
    let lo2 := if b = 0xF0 then 0x90 else 0x80
    let hi2 := if b = 0xF4 then 0x8F else 0xBF
    match rest with
    | c :: r =>
      if lo2 ≤ c ∧ c ≤ hi2 then
        match r with
        | d :: r2 =>
          if 0x80 ≤ d ∧ d ≤ 0xBF then
            match r2 with
            | e :: r3 =>
              if 0x80 ≤ e ∧ e ≤ 0xBF then
                ((b - 0xF0) * 262144 + (c - 0x80) * 4096 + (d - 0x80) * 64 + (e - 0x80), r3)
              else (0xFFFD, r2)
            | [] => (0xFFFD, [])
          else (0xFFFD, r)
        | [] => (0xFFFD, [])
      else (0xFFFD, rest)
    | [] => (0xFFFD, [])
  else (0xFFFD, rest)

/-- Fuel-indexed decoding loop; `utf8DecodeOne` never grows the remainder,
so fuel equal to the list length always suffices. -/
def utf8DecodeCps : Nat → List Nat → List Nat
  | _, [] => []
  | 0, _ :: _ => []
  | fuel + 1, b :: rest =>
    let step := utf8DecodeOne b rest
    step.1 :: utf8DecodeCps fuel step.2

/-- A code point as UTF-16 code units (surrogate pair above U+FFFF). -/
def cpToUtf16 (cp : Nat) : List Nat :=
  if cp < 0x10000 then [cp]
  else [0xD800 + (cp - 0x10000) / 0x400, 0xDC00 + (cp - 0x10000) % 0x400]

/-- `buf.toString('utf8')` as a UTF-16 code-unit sequence. -/
def utf8Decode (bytes : List Nat) : List Nat :=
  ((utf8DecodeCps bytes.length bytes).map cpToUtf16).flatten

/-! ### UTF-8 encoding (`Buffer.from(str, 'utf8')`)

JS strings are UTF-16 code-unit sequences; well-formed surrogate pairs
encode as 4-byte sequences and unpaired surrogates as U+FFFD. -/

/-- UTF-8 bytes of one code point (≤ U+10FFFF). -/
def cpToUtf8 (cp : Nat) : List Nat :=
  if cp < 0x80 then [cp]
  else if cp < 0x800 then [0xC0 + cp / 64, 0x80 + cp % 64]
  else if cp < 0x10000 then [0xE0 + cp / 4096, 0x80 + cp / 64 % 64, 0x80 + cp % 64]
  else [0xF0 + cp / 262144, 0x80 + cp / 4096 % 64, 0x80 + cp / 64 % 64, 0x80 + cp % 64]

/-- Fuel-indexed encoding loop over UTF-16 code units. -/
def utf16ToUtf8 : Nat → List Nat → List Nat
  | _, [] => []
  | 0, _ :: _ => []
  | fuel + 1, u :: rest =>
    if u < 0xD800 ∨ 0xDFFF < u then cpToUtf8 u ++ utf16ToUtf8 fuel rest
    else if u ≤ 0xDBFF then
      match rest with
      | v :: r2 =>
        if 0xDC00 ≤ v ∧ v ≤ 0xDFFF then
          cpToUtf8 (0x10000 + (u - 0xD800) * 0x400 + (v - 0xDC00)) ++ utf16ToUtf8 fuel r2
        else cpToUtf8 0xFFFD ++ utf16ToUtf8 fuel rest
      | [] => cpToUtf8 0xFFFD
    else cpToUtf8 0xFFFD ++ utf16ToUtf8 fuel rest

/-- `Buffer.from(str, 'utf8')` for a JS string given by its code units. -/
def jsUtf8Encode (units : List Nat) : List Nat := utf16ToUtf8 units.length units

/-! ### Data model -/

/-- One entry of a `TransactionInstruction`'s `keys` array. -/
structure AccountMeta where
  pubkey : List Nat
  isSigner : Bool
  isWritable : Bool
deriving DecidableEq, Repr

/-- `TransactionInstruction`, restricted to the fields the claims are
about (the `programId` field is the fixed protocol constant on every
instruction and plays no role in any claim). -/
structure TransactionInstruction where
  keys : List AccountMeta
  data : List Nat
deriving DecidableEq, Repr

/-- Result shape shared by all validators: `{isValid, errors}`. -/
structure ValidationResult where
  isValid : Bool
  errors : List String
deriving DecidableEq, Repr

/-- `SystemProgram.programId` is the all-zero 32-byte address. -/
def systemProgramId : List Nat := List.replicate 32 0

/-- The type of `PublicKey.findProgramAddressSync (seeds, PROGRAM_ID)`:
every theorem is parametric in this function, which stands for the
deterministic SHA-256 based bump search of the Solana SDK. -/
abbrev Fpa := List (List Nat) → List Nat × Nat

/-! ### `src/utils.ts` -/

/-- `normalizeTokenOrder`: the source compares `tokenAMint.toBuffer() <
tokenBMint.toBuffer()`; on Node `Buffer`s the `<` operator compares the
UTF-8-decoded strings of the two buffers. -/
def normalizeTokenOrder (tokenAMint tokenBMint : List Nat) : List Nat × List Nat :=
  if jsStrLt (utf8Decode tokenAMint) (utf8Decode tokenBMint) then (tokenAMint, tokenBMint)
  else (tokenBMint, tokenAMint)

/-- `deriveSystemStatePDA`. -/
def deriveSystemStatePDA (fpa : Fpa) : List Nat × Nat :=
  fpa [strBytes (r"system_state")]

/-- `deriveMainTreasuryPDA`. -/
def deriveMainTreasuryPDA (fpa : Fpa) : List Nat × Nat :=
  fpa [strBytes (r"main_treasury")]

/-- The seed list `derivePoolStatePDA` passes to `findProgramAddressSync`. -/
def poolStateSeeds (tokenAMint tokenBMint : List Nat) (ratioA ratioB : Nat) :
    List (List Nat) :=
  [strBytes (r"pool_state_v2"),
   (normalizeTokenOrder tokenAMint tokenBMint).1,
   (normalizeTokenOrder tokenAMint tokenBMint).2,
   le64 ratioA, le64 ratioB]

/-- `derivePoolStatePDA`. -/
def derivePoolStatePDA (fpa : Fpa) (tokenAMint tokenBMint : List Nat)
    (ratioA ratioB : Nat) : List Nat × Nat :=
  fpa (poolStateSeeds tokenAMint tokenBMint ratioA ratioB)

/-- `calculateRequiredLiquidity`; `bn.div` throws on a zero divisor, hence
`Option`.  `bn.div` truncates, which on the naturals is floor division. -/
def calculateRequiredLiquidity (depositAmount depositTokenRatio otherTokenRatio : Nat) :
    Option Nat :=
  if depositTokenRatio = 0 then none
  else some (depositAmount * otherTokenRatio / depositTokenRatio)

/-- `calculateSwapOutput`; `bn.div` throws on a zero divisor, hence `Option`. -/
def calculateSwapOutput (inputAmount inputRatio outputRatio : Nat) : Option Nat :=
  if inputRatio = 0 then none
  else some (inputAmount * outputRatio / inputRatio)

/-- `applySlippage`.  For the integer tolerances of the claims,
`Math.floor((100 - slippageTolerance) * 100)` is `(100 - t) * 100`
exactly; `bn.div` truncates toward zero (`Int.tdiv`). -/
def applySlippage (expectedAmount : Nat) (slippageTolerance : Int) : Int :=
  Int.tdiv ((expectedAmount : Int) * ((100 - slippageTolerance) * 100)) 10000

/-- `encodeMessage`: `message.slice(0, maxLength)` truncates the string to
`maxLength` UTF-16 code units, the result is UTF-8 encoded, and a 4-byte
little-endian byte length is prepended. -/
def encodeMessage (message : List Nat) (maxLength : Nat) : List Nat :=
  let messageBuffer := jsUtf8Encode (message.take maxLength)
  le32 messageBuffer.length ++ messageBuffer

/-! ### `src/instructions/treasury.ts` -/

/-- `createDonateSolInstruction` (opcode `PoolInstruction.DonateSol = 13`). -/
def createDonateSolInstruction (fpa : Fpa) (donor : List Nat) (amount : Nat)
    (message : List Nat) : TransactionInstruction :=
  { keys :=
      [⟨donor, true, true⟩,
       ⟨(deriveMainTreasuryPDA fpa).1, false, true⟩,
       ⟨(deriveSystemStatePDA fpa).1, false, false⟩,
       ⟨systemProgramId, false, false⟩],
    data := 13 :: (le64 amount ++ encodeMessage message 200) }

/-- `createConsolidatePoolFeesInstruction` (opcode 15): the pool list is
truncated to 20 entries, the truncated count is serialized little-endian,
and the truncated pools follow the three fixed accounts. -/
def createConsolidatePoolFeesInstruction (fpa : Fpa) (poolStatePDAs : List (List Nat)) :
    TransactionInstruction :=
  let limitedPools := poolStatePDAs.take 20
  { keys :=
      [⟨(deriveSystemStatePDA fpa).1, false, false⟩,
       ⟨(deriveMainTreasuryPDA fpa).1, false, true⟩,
       ⟨systemProgramId, false, false⟩] ++
      limitedPools.map (fun poolPDA => ⟨poolPDA, false, true⟩),
    data := 15 :: le32 limitedPools.length }

/-- `validateConsolidationParams`.  The duplicate check builds a JS `Set`
of base-58 strings; `b58` abstracts `toBase58` (injective on 32-byte
keys), and the set's size is the number of distinct images. -/
def validateConsolidationParams (b58 : List Nat → List Nat)
    (poolStatePDAs : List (List Nat)) : ValidationResult :=
  let e1 := if poolStatePDAs.length = 0 then [r"At least one pool must be specified"] else []
  let e2 := if 20 < poolStatePDAs.length then
      [r"Maximum 20 pools per consolidation transaction"] else []
  let e3 := if (poolStatePDAs.map b58).dedup.length ≠ poolStatePDAs.length then
      [r"Duplicate pools found in consolidation list"] else []
  let errors := e1 ++ e2 ++ e3
  ⟨errors.isEmpty, errors⟩

/-! ### `src/instructions/pool.ts` -/

/-- `PoolCreationParams`, with `BN` ratio fields as integers (the
validator compares them against zero and `10^18`). -/
structure PoolCreationParams where
  tokenAMint : List Nat
  tokenBMint : List Nat
  ratioA : Int
  ratioB : Int
  userAuthority : List Nat
deriving DecidableEq, Repr

/-- `validatePoolCreationParams`: four independent checks, every
violation appended in source order, no short-circuit. -/
def validatePoolCreationParams (params : PoolCreationParams) : ValidationResult :=
  let e1 := if params.ratioA ≤ 0 then [r"Ratio A must be positive"] else []
  let e2 := if params.ratioB ≤ 0 then [r"Ratio B must be positive"] else []
  let e3 := if params.tokenAMint = params.tokenBMint then
      [r"Token A and Token B must be different"] else []
  let e4 := if 10 ^ 18 ≤ params.ratioA ∨ 10 ^ 18 ≤ params.ratioB then
      [r"Ratios too large (max 10^18)"] else []
  let errors := e1 ++ e2 ++ e3 ++ e4
  ⟨errors.isEmpty, errors⟩

/-! ### `src/instructions/swap.ts` -/

/-- `SwapParams`; `slippageTolerance` is optional (the claims concern
integer tolerances, so it is carried as `Option Int`). -/
structure SwapParams where
  poolStatePDA : List Nat
  amountIn : Nat
  expectedAmountOut : Nat
  inputTokenMint : List Nat
  userAuthority : List Nat
  userInputAccount : List Nat
  userOutputAccount : List Nat
  slippageTolerance : Option Int
deriving DecidableEq, Repr

/-- `params.slippageTolerance || 1`: JS `||` replaces both `undefined`
and the falsy number `0` by the default `1`. -/
def swapToleranceOrDefault (params : SwapParams) : Int :=
  match params.slippageTolerance with
  | none => 1
  | some t => if t = 0 then 1 else t

/-- `createSwapInstruction` (opcode `PoolInstruction.Swap = 9`).
`minAmountOut.toArrayLike` serializes the `BN` magnitude (`natAbs`).
`tokenProgramId` abstracts the fixed `TOKEN_PROGRAM_ID` constant. -/
def createSwapInstruction (fpa : Fpa) (tokenProgramId : List Nat)
    (params : SwapParams) : TransactionInstruction :=
  let minAmountOut := applySlippage params.expectedAmountOut (swapToleranceOrDefault params)
  { keys :=
      [⟨params.userAuthority, true, true⟩,
       ⟨(deriveSystemStatePDA fpa).1, false, false⟩,
       ⟨params.poolStatePDA, false, true⟩,
       ⟨params.userInputAccount, false, true⟩,
       ⟨params.userOutputAccount, false, true⟩,
       ⟨tokenProgramId, false, false⟩,
       ⟨systemProgramId, false, false⟩,
       ⟨(deriveMainTreasuryPDA fpa).1, false, true⟩,
       ⟨params.inputTokenMint, false, false⟩],
    data := 9 :: (params.inputTokenMint ++ le64 params.amountIn ++ le64 minAmountOut.natAbs) }

/-- `validateSwapParams`. -/
def validateSwapParams (params : SwapParams) : ValidationResult :=
  let e1 := if params.amountIn ≤ 0 then [r"Input amount must be positive"] else []
  let e2 := if params.expectedAmountOut ≤ 0 then
      [r"Expected output amount must be positive"] else []
  let e3 := match params.slippageTolerance with
    | some t => if t < 0 ∨ 50 < t then
        [r"Slippage tolerance must be between 0 and 50 percent"] else []
    | none => []
  let e4 := if 10 ^ 15 ≤ params.amountIn then [r"Swap amount too large"] else []
  let errors := e1 ++ e2 ++ e3 ++ e4
  ⟨errors.isEmpty, errors⟩

/-! ### `src/instructions/liquidity.ts` -/

/-- `estimateLPTokensFromDeposit`: bootstrap branch if either the LP
supply or the pool balance is zero, otherwise floor proportional share. -/
def estimateLPTokensFromDeposit (depositAmount currentPoolBalance currentLpSupply : Nat) :
    Nat :=
  if currentLpSupply = 0 ∨ currentPoolBalance = 0 then depositAmount
  else depositAmount * currentLpSupply / currentPoolBalance

/-- `estimateTokensFromWithdraw`: zero if the LP supply is zero,
otherwise floor proportional share. -/
def estimateTokensFromWithdraw (lpAmount currentPoolBalance currentLpSupply : Nat) : Nat :=
  if currentLpSupply = 0 then 0
  else lpAmount * currentPoolBalance / currentLpSupply

/-! ### Log parsing (`src/instructions/public.ts`)

Logs are JS strings, i.e. UTF-16 code-unit lists. -/

/-- Does `pat` occur at the head of `l`? -/
def seqStartsWith : List Nat → List Nat → Bool
  | [], _ => true
  | _ :: _, [] => false
  | a :: as, b :: bs => a = b && seqStartsWith as bs

/-- JS whitespace class `\s` (the code points a log line could carry). -/
def isJsWs (c : Nat) : Bool :=
  c = 32 ∨ c = 9 ∨ c = 10 ∨ c = 13 ∨ c = 11 ∨ c = 12 ∨ c = 160 ∨ c = 0xFEFF

/-- ASCII digit as a code unit. -/
def isDigitCU (c : Nat) : Bool := 48 ≤ c ∧ c ≤ 57

/-- Value of an ASCII digit string. -/
def digitsVal (ds : List Nat) : Nat := ds.foldl (fun acc d => acc * 10 + (d - 48)) 0

/-- Try the regex `label ++ \s*(\d+)` anchored at the head of `l`:
the label, then a maximal whitespace run, then at least one digit;
the capture is the maximal digit run. -/
def tryMatchNumAt (label l : List Nat) : Option Nat :=
  if seqStartsWith label l then
    let afterWs := (l.drop label.length).dropWhile isJsWs
    let ds := afterWs.takeWhile isDigitCU
    if ds.length = 0 then none else some (digitsVal ds)
  else none

/-- `line.match(new RegExp(label + '\\s*(\\d+)'))`: the regex engine scans
left to right for the first position where the whole pattern matches. -/
def regexFindNum (label : List Nat) : List Nat → Option Nat
  | [] => tryMatchNumAt label []
  | c :: rest =>
    match tryMatchNumAt label (c :: rest) with
    | some v => some v
    | none => regexFindNum label rest

/-- `log.includes(label)`. -/
def seqContains (label : List Nat) : List Nat → Bool
  | [] => seqStartsWith label []
  | c :: rest => seqStartsWith label (c :: rest) || seqContains label rest

/-- `TreasuryInfo` (numeric fields; `BN` fields and the two `parseInt`
count fields are all exact naturals on digit strings). -/
structure TreasuryInfo where
  totalBalance : Nat
  totalFeesCollected : Nat
  lastWithdrawalTime : Nat
  withdrawalCount : Nat
  donationCount : Nat
  totalDonations : Nat
deriving DecidableEq, Repr

/-- The `Partial<TreasuryInfo>` accumulator of the parsing loop. -/
structure PartialTreasuryInfo where
  totalBalance : Option Nat
  totalFeesCollected : Option Nat
  lastWithdrawalTime : Option Nat
  withdrawalCount : Option Nat
  donationCount : Option Nat
  totalDonations : Option Nat
deriving DecidableEq, Repr

/-- The empty accumulator. -/
def emptyPartialTreasuryInfo : PartialTreasuryInfo := ⟨none, none, none, none, none, none⟩

/-- A labelled field is overwritten when the line contains the label and
the regex finds a number; otherwise the stored value is kept. -/
def updateField (label log : List Nat) (old : Option Nat) : Option Nat :=
  if seqContains label log then
    match regexFindNum label log with
    | some v => some v
    | none => old
  else old

/-- One iteration of the `for (const log of logs)` loop of
`parseTreasuryInfoFromLogs`. -/
def updateTreasuryInfo (info : PartialTreasuryInfo) (log : List Nat) :
    PartialTreasuryInfo :=
  { totalBalance := updateField (strCU (r"Total Balance:")) log info.totalBalance,
    totalFeesCollected := updateField (strCU (r"Total Fees Collected:")) log info.totalFeesCollected,
    lastWithdrawalTime := updateField (strCU (r"Last Withdrawal:")) log info.lastWithdrawalTime,
    withdrawalCount := updateField (strCU (r"Withdrawal Count:")) log info.withdrawalCount,
    donationCount := updateField (strCU (r"Donation Count:")) log info.donationCount,
    totalDonations := updateField (strCU (r"Total Donations:")) log info.totalDonations }

/-- `parseTreasuryInfoFromLogs`: fold the update loop, then fill every
missing field with its zero default (`info.field || 0`; a `BN` is always
truthy and the number default only rewrites `0` to `0`, so `getD 0` is
exact). -/
def parseTreasuryInfoFromLogs (logs : List (List Nat)) : TreasuryInfo :=
  let info := logs.foldl updateTreasuryInfo emptyPartialTreasuryInfo
  { totalBalance := info.totalBalance.getD 0,
    totalFeesCollected := info.totalFeesCollected.getD 0,
    lastWithdrawalTime := info.lastWithdrawalTime.getD 0,
    withdrawalCount := info.withdrawalCount.getD 0,
    donationCount := info.donationCount.getD 0,
    totalDonations := info.totalDonations.getD 0 }

/-! ### `extractVersionFromLogs` -/

/-- JS `String.prototype.trim`. -/
def jsTrim (l : List Nat) : List Nat :=
  ((l.dropWhile isJsWs).reverse.dropWhile isJsWs).reverse

/-- The JS string after the first occurrence of `label` in `l`
(`none` when the label does not occur). -/
def afterFirst (label : List Nat) : List Nat → Option (List Nat)
  | [] => if seqStartsWith label [] then some ([].drop label.length) else none
  | c :: rest =>
    if seqStartsWith label (c :: rest) then some ((c :: rest).drop label.length)
    else afterFirst label rest

/-- The prefix of `l` before the next occurrence of `label`. -/
def upToNext (label : List Nat) : List Nat → List Nat
  | [] => []
  | c :: rest =>
    if seqStartsWith label (c :: rest) then [] else c :: upToNext label rest

/-- `log.split(label)[1]`: the chunk between the first and second
occurrence of the label. -/
def splitSecond (label log : List Nat) : Option (List Nat) :=
  (afterFirst label log).map (upToNext label)

/-- The `versionInfo` record built by `extractVersionFromLogs`. -/
structure VersionInfo where
  name : Option (List Nat)
  version : Option (List Nat)
  buildDate : Option (List Nat)
  rustVersion : Option (List Nat)
deriving DecidableEq, Repr

/-- One version field: `if (log.includes(label)) v = log.split(label)[1]?.trim()`. -/
def updateVersionField (label log : List Nat) (old : Option (List Nat)) :
    Option (List Nat) :=
  if seqContains label log then (splitSecond label log).map jsTrim else old

/-- One iteration of the `for (const log of logs)` loop of
`extractVersionFromLogs`. -/
def updateVersionInfo (vi : VersionInfo) (log : List Nat) : VersionInfo :=
  { name := updateVersionField (strCU (r"Contract Name:")) log vi.name,
    version := updateVersionField (strCU (r"Contract Version:")) log vi.version,
    buildDate := updateVersionField (strCU (r"Build Date:")) log vi.buildDate,
    rustVersion := updateVersionField (strCU (r"Rust Version:")) log vi.rustVersion }

/-- The record accumulated over all log lines. -/
def versionInfoFromLogs (logs : List (List Nat)) : VersionInfo :=
  logs.foldl updateVersionInfo ⟨none, none, none, none⟩

/-- One `parts.push` entry: skipped when the field is unset or holds the
falsy empty string. -/
def versionPart (tag : List Nat) (v : Option (List Nat)) : Option (List Nat) :=
  match v with
  | none => none
  | some s => if s = [] then none else some (tag ++ s)

/-- `extractVersionFromLogs`: placeholder when no label was ever seen,
otherwise the present parts joined by " | ". -/
def extractVersionFromLogs (logs : List (List Nat)) : List Nat :=
  let vi := versionInfoFromLogs logs
  if vi = ⟨none, none, none, none⟩ then
    strCU (r"Version information not available in logs")
  else
    let parts := [versionPart (strCU (r"Name: ")) vi.name,
                  versionPart (strCU (r"Version: ")) vi.version,
                  versionPart (strCU (r"Build: ")) vi.buildDate,
                  versionPart (strCU (r"Rust: ")) vi.rustVersion]
    List.intercalate (strCU (r" | ")) (parts.filterMap id)

/-- The value a single log line contributes to a numeric treasury field:
`some v` exactly when the line contains the label and the regex finds a
number there. -/
def logNumExtract (label log : List Nat) : Option Nat :=
  if seqContains label log then regexFindNum label log else none

/-- The value a single log line contributes to a version field. -/
def logVerExtract (label log : List Nat) : Option (List Nat) :=
  if seqContains label log then (splitSecond label log).map jsTrim else none

/-! ### IEEE-754 binary64 model (`number` arithmetic of `toBasisPoints`
and `fromBasisPoints`)

A double value is carried as the exact rational it denotes; one
JavaScript arithmetic step computes the exact rational result and rounds
it with `fl`: round to nearest, ties to even, with the subnormal range
below `2^-1022` on the fixed `2^-1074` grid.  (Overflow to infinity is
outside every range exercised here.) -/

/-- Fuel-indexed `⌊log₂ n⌋` (fuel `n` always suffices). -/
def lg2aux : Nat → Nat → Nat
  | 0, _ => 0
  | f + 1, n => if n ≤ 1 then 0 else lg2aux f (n / 2) + 1

/-- `⌊log₂ n⌋` for `n ≥ 1`. -/
def natLog2 (n : Nat) : Nat := lg2aux n n

/-- The binade exponent of a positive rational: the unique `e` with
`2^e ≤ q < 2^(e+1)`. -/
def ratExp (q : ℚ) : ℤ :=
  let e0 : ℤ := (natLog2 q.num.toNat : ℤ) - (natLog2 q.den : ℤ)
  if (2 : ℚ) ^ e0 ≤ q then e0 else e0 - 1

/-- Round to nearest integer, ties to even. -/
def roundHalfEven (s : ℚ) : ℤ :=
  if s - ⌊s⌋ < 1 / 2 then ⌊s⌋
  else if 1 / 2 < s - ⌊s⌋ then ⌊s⌋ + 1
  else if 2 ∣ ⌊s⌋ then ⌊s⌋ else ⌊s⌋ + 1

/-- Round a positive rational to the binary64 grid: 53 significant bits
at exponent `e`, fixed grid below the normal range. -/
def flPos (q : ℚ) : ℚ :=
  let e := max (ratExp q) (-1022)
  ((roundHalfEven (q * 2 ^ (52 - e)) : ℤ) : ℚ) * 2 ^ (e - 52)

/-- Round an exact rational to the nearest binary64 value. -/
def fl (q : ℚ) : ℚ :=
  if q = 0 then 0 else if 0 < q then flPos q else -flPos (-q)

/-- `Math.pow(10, decimals)`: the rounded value of the exact power. -/
def jsPow10 (decimals : Nat) : ℚ := fl ((10 : ℚ) ^ decimals)

/-- `fromBasisPoints`: `basisPoints.toNumber() / Math.pow(10, decimals)`
as double division (`.toNumber()` is exact below `2^53` and throws
above, so callers stay below). -/
def fromBasisPoints (basisPoints : Nat) (decimals : Nat) : ℚ :=
  fl ((basisPoints : ℚ) / jsPow10 decimals)

/-- `toBasisPoints`: `new BN(Math.floor(amount * Math.pow(10, decimals)))`
where the multiplication is double multiplication. -/
def toBasisPoints (amount : ℚ) (decimals : Nat) : Int :=
  ⌊fl (amount * jsPow10 decimals)⌋

/-! ## Theorems -/

/-- `Int.tdiv` on natural casts is natural floor division. -/
theorem tdiv_natCast (a b : Nat) : Int.tdiv (a : Int) (b : Int) = ((a / b : Nat) : Int) := rfl

/-- On integer tolerances in range, `applySlippage` is the natural-number
formula `⌊expected * (10000 - t*100) / 10000⌋`. -/
theorem applySlippage_formula (expected t : Nat) (ht : t ≤ 50) :
    applySlippage expected (t : Int) = ((expected * (10000 - t * 100) / 10000 : Nat) : Int) := by
  unfold applySlippage
  have h1 : ((100 : Int) - (t : Int)) * 100 = ((10000 - t * 100 : Nat) : Int) := by
    rw [Nat.cast_sub (by omega)]
    push_cast
    ring
  rw [h1, show ((10000 : Int)) = ((10000 : Nat) : Int) from rfl, ← Nat.cast_mul, tdiv_natCast]

/-- C5: for every integer tolerance in [0,50], `applySlippage` computes
`floor(expected * (10000 - tolerance*100) / 10000)`; the quoted instances
hold (including out-of-range tolerances 51 and 200, which are not
clamped but fed straight through the formula); and `validateSwapParams`
rejects any parameters whose `slippageTolerance` is defined and lies
outside [0,50]. -/
theorem claim_C5 (expected t : Nat) (ht : t ≤ 50) (p : SwapParams) (t' : Int)
    (hp : p.slippageTolerance = some t') (hout : t' < 0 ∨ 50 < t') :
    applySlippage expected (t : Int) = ((expected * (10000 - t * 100) / 10000 : Nat) : Int) ∧
    applySlippage 1000 1 = 990 ∧
    applySlippage 1000 0 = 1000 ∧
    applySlippage 1000 51 = 490 ∧
    applySlippage 1000 200 = -1000 ∧
    (validateSwapParams p).isValid = false := by
  refine ⟨applySlippage_formula expected t ht, by decide, by decide, by decide, by decide, ?_⟩
  simp only [validateSwapParams, hp]
  rw [if_pos hout]
  simp

/-- C5 witness at concrete inputs. -/
theorem claim_C5_witness :
    applySlippage 1000 (7 : Nat) = ((1000 * (10000 - 7 * 100) / 10000 : Nat) : Int) ∧
    (validateSwapParams ⟨[], 5, 7, [], [], [], [], some 51⟩).isValid = false :=
  ⟨(claim_C5 1000 7 (by decide) ⟨[], 5, 7, [], [], [], [], some 51⟩ 51 rfl
      (Or.inr (by decide))).1,
   (claim_C5 1000 7 (by decide) ⟨[], 5, 7, [], [], [], [], some 51⟩ 51 rfl
      (Or.inr (by decide))).2.2.2.2.2⟩

/-- C6: a pool-creation parameter set with non-positive `ratioA`,
identical token mints and an in-range `ratioB` fails validation with
exactly the two error strings, in source check order. -/
theorem claim_C6 (p : PoolCreationParams) (h1 : p.ratioA ≤ 0)
    (h2 : p.tokenAMint = p.tokenBMint) (h3 : 0 < p.ratioB) (h4 : p.ratioB < 10 ^ 18) :
    (validatePoolCreationParams p).isValid = false ∧
    (validatePoolCreationParams p).errors =
      [r"Ratio A must be positive", r"Token A and Token B must be different"] := by
  have e2 : ¬ p.ratioB ≤ 0 := not_le.mpr h3
  have e4 : ¬ ((10 : Int) ^ 18 ≤ p.ratioA ∨ (10 : Int) ^ 18 ≤ p.ratioB) := by
    push_neg
    exact ⟨lt_of_le_of_lt h1 (by norm_num), h4⟩
  simp only [validatePoolCreationParams]
  rw [if_pos h1, if_neg e2, if_pos h2, if_neg e4]
  simp

/-- C6 witness at a concrete parameter set. -/
theorem claim_C6_witness :
    (validatePoolCreationParams ⟨[3], [3], -2, 7, []⟩).isValid = false ∧
    (validatePoolCreationParams ⟨[3], [3], -2, 7, []⟩).errors =
      [r"Ratio A must be positive", r"Token A and Token B must be different"] :=
  claim_C6 ⟨[3], [3], -2, 7, []⟩ (by decide) rfl (by decide) (by decide)

/-- C7: the two ratio divisions raise (return `none`) on a zero divisor
for every amount, while the two liquidity estimators take their modeled
bootstrap branches, and all four compute the floor formulas on nonzero
divisors. -/
theorem claim_C7 (a i o d pb lp l : Nat) :
    calculateSwapOutput a 0 o = none ∧
    calculateRequiredLiquidity a 0 o = none ∧
    (i ≠ 0 → calculateSwapOutput a i o = some (a * o / i)) ∧
    (i ≠ 0 → calculateRequiredLiquidity a i o = some (a * o / i)) ∧
    estimateLPTokensFromDeposit 500 0 0 = 500 ∧
    (lp = 0 ∨ pb = 0 → estimateLPTokensFromDeposit d pb lp = d) ∧
    (lp ≠ 0 → pb ≠ 0 → estimateLPTokensFromDeposit d pb lp = d * lp / pb) ∧
    estimateTokensFromWithdraw l pb 0 = 0 ∧
    (lp ≠ 0 → estimateTokensFromWithdraw l pb lp = l * pb / lp) := by
  refine ⟨rfl, rfl, fun h => ?_, fun h => ?_, by decide, fun h => ?_, fun h h' => ?_, rfl,
    fun h => ?_⟩
  · simp [calculateSwapOutput, h]
  · simp [calculateRequiredLiquidity, h]
  · simp [estimateLPTokensFromDeposit, h]
  · simp [estimateLPTokensFromDeposit, h, h']
  · simp [estimateTokensFromWithdraw, h]

/-- C7 witness at concrete inputs. -/
theorem claim_C7_witness :
    calculateSwapOutput 3 0 5 = none ∧
    calculateSwapOutput 3 2 5 = some 7 ∧
    estimateLPTokensFromDeposit 500 0 0 = 500 ∧
    estimateLPTokensFromDeposit 10 4 6 = 15 ∧
    estimateTokensFromWithdraw 9 4 6 = 6 :=
  ⟨(claim_C7 3 2 5 10 4 6 9).1,
   (claim_C7 3 2 5 10 4 6 9).2.2.1 (by decide),
   (claim_C7 3 2 5 10 4 6 9).2.2.2.2.1,
   (claim_C7 3 2 5 10 4 6 9).2.2.2.2.2.2.1 (by decide) (by decide),
   (claim_C7 3 2 5 10 4 6 9).2.2.2.2.2.2.2.2 (by decide)⟩

/-- C4: a pool list longer than 20 is encoded with opcode 15, a count of
exactly 20 and precisely the first 20 pools after the three fixed
accounts, while `validateConsolidationParams` flags it; lists of 1..20
distinct pools validate cleanly. -/
theorem claim_C4 (fpa : Fpa) (b58 : List Nat → List Nat) (hinj : Function.Injective b58)
    (pdas : List (List Nat)) :
    (20 < pdas.length →
      (createConsolidatePoolFeesInstruction fpa pdas).data = 15 :: le32 20 ∧
      (createConsolidatePoolFeesInstruction fpa pdas).keys.map AccountMeta.pubkey =
        [(deriveSystemStatePDA fpa).1, (deriveMainTreasuryPDA fpa).1, systemProgramId] ++
          pdas.take 20 ∧
      (pdas.take 20).length = 20 ∧
      (validateConsolidationParams b58 pdas).isValid = false ∧
      r"Maximum 20 pools per consolidation transaction" ∈
        (validateConsolidationParams b58 pdas).errors) ∧
    (1 ≤ pdas.length → pdas.length ≤ 20 → pdas.Nodup →
      (validateConsolidationParams b58 pdas).isValid = true ∧
      (validateConsolidationParams b58 pdas).errors = []) := by
  constructor
  · intro h20
    have hlen : (pdas.take 20).length = 20 := by
      rw [List.length_take]
      omega
    refine ⟨?_, ?_, hlen, ?_, ?_⟩
    · simp only [createConsolidatePoolFeesInstruction, hlen]
    · simp [createConsolidatePoolFeesInstruction, Function.comp_def]
    · simp only [validateConsolidationParams]
      rw [if_pos h20]
      rcases ite_eq_or_eq (pdas.length = 0) [r"At least one pool must be specified"]
        ([] : List String) with h | h <;>
        rcases ite_eq_or_eq ((pdas.map b58).dedup.length ≠ pdas.length)
          [r"Duplicate pools found in consolidation list"] ([] : List String) with h' | h' <;>
        simp [h, h']
    · simp only [validateConsolidationParams]
      rw [if_pos h20]
      simp
  · intro hlo hhi hnd
    have h1 : ¬ pdas.length = 0 := by omega
    have h2 : ¬ 20 < pdas.length := by omega
    have h3 : ¬ (pdas.map b58).dedup.length ≠ pdas.length := by
      rw [List.dedup_eq_self.mpr (hnd.map hinj), List.length_map]
      exact fun h => h rfl
    simp only [validateConsolidationParams]
    rw [if_neg h1, if_neg h2, if_neg h3]
    simp

/-- C4 witness: a 25-element distinct pool list and a 3-element one. -/
theorem claim_C4_witness :
    (createConsolidatePoolFeesInstruction (fun s => (s.flatten, 255))
        ((List.range 25).map (fun i => [i]))).data = 15 :: le32 20 ∧
    (validateConsolidationParams id ((List.range 25).map (fun i => [i]))).isValid = false ∧
    (validateConsolidationParams id [[0], [1], [2]]).isValid = true :=
  ⟨((claim_C4 (fun s => (s.flatten, 255)) id (fun _ _ h => h)
      ((List.range 25).map (fun i => [i]))).1 (by decide)).1,
   ((claim_C4 (fun s => (s.flatten, 255)) id (fun _ _ h => h)
      ((List.range 25).map (fun i => [i]))).1 (by decide)).2.2.2.1,
   ((claim_C4 (fun s => (s.flatten, 255)) id (fun _ _ h => h)
      [[0], [1], [2]]).2 (by decide) (by decide) (by decide)).1⟩

/-- JS string order is asymmetric. -/
theorem jsStrLt_asymm : ∀ x y : List Nat, jsStrLt x y = true → jsStrLt y x = false := by
  intro x
  induction x with
  | nil => intro y h; cases y <;> simp_all [jsStrLt]
  | cons a as ih =>
    intro y h
    cases y with
    | nil => simp [jsStrLt] at h
    | cons b bs =>
      simp only [jsStrLt] at h ⊢
      rcases lt_trichotomy a b with hab | hab | hab
      · rw [if_neg (show ¬ b < a by omega), if_pos hab]
      · subst hab
        rw [if_neg (lt_irrefl a), if_neg (lt_irrefl a)] at h ⊢
        exact ih bs h
      · rw [if_neg (show ¬ a < b by omega), if_pos hab] at h
        exact absurd h (by simp)

/-- JS string order is total: mutually incomparable strings are equal. -/
theorem jsStrLt_total : ∀ x y : List Nat,
    jsStrLt x y = false → jsStrLt y x = false → x = y := by
  intro x
  induction x with
  | nil => intro y h _; cases y <;> simp_all [jsStrLt]
  | cons a as ih =>
    intro y h h'
    cases y with
    | nil => simp [jsStrLt] at h'
    | cons b bs =>
      simp only [jsStrLt] at h h'
      rcases lt_trichotomy a b with hab | hab | hab
      · rw [if_pos hab] at h; exact absurd h (by simp)
      · subst hab
        rw [if_neg (lt_irrefl a), if_neg (lt_irrefl a)] at h h'
        rw [ih bs h h']
      · rw [if_pos hab] at h'; exact absurd h' (by simp)

/-- C1 (amended): pool derivation is a pure function of its seed list
(determinism), and swapping the two token arguments yields the identical
pool address whenever the UTF-8 decodings of the two buffers differ as
strings — `normalizeTokenOrder` canonicalizes by JS comparison of the
UTF-8-decoded buffers, and when the decoded string of `a` is strictly
smaller both argument orders canonicalize to `(a, b)`. -/
theorem claim_C1 (fpa : Fpa) (tokenA tokenB : List Nat) (ratioA ratioB : Nat)
    (hne : utf8Decode tokenA ≠ utf8Decode tokenB) :
    derivePoolStatePDA fpa tokenA tokenB ratioA ratioB =
      derivePoolStatePDA fpa tokenB tokenA ratioA ratioB ∧
    (jsStrLt (utf8Decode tokenA) (utf8Decode tokenB) = true →
      normalizeTokenOrder tokenA tokenB = (tokenA, tokenB) ∧
      normalizeTokenOrder tokenB tokenA = (tokenA, tokenB)) := by
  have hnorm : normalizeTokenOrder tokenA tokenB = normalizeTokenOrder tokenB tokenA := by
    unfold normalizeTokenOrder
    by_cases h1 : jsStrLt (utf8Decode tokenA) (utf8Decode tokenB) = true
    · rw [if_pos h1,
        if_neg (show ¬ jsStrLt (utf8Decode tokenB) (utf8Decode tokenA) = true by
          rw [jsStrLt_asymm _ _ h1]; simp)]
    · have h1' : jsStrLt (utf8Decode tokenA) (utf8Decode tokenB) = false := by
        simpa using h1
      by_cases h2 : jsStrLt (utf8Decode tokenB) (utf8Decode tokenA) = true
      · rw [if_neg h1, if_pos h2]
      · have h2' : jsStrLt (utf8Decode tokenB) (utf8Decode tokenA) = false := by
          simpa using h2
        exact absurd (jsStrLt_total _ _ h1' h2') hne
  constructor
  · unfold derivePoolStatePDA poolStateSeeds
    rw [hnorm]
  · intro hlt
    have h2 : normalizeTokenOrder tokenA tokenB = (tokenA, tokenB) := by
      unfold normalizeTokenOrder
      rw [if_pos hlt]
    exact ⟨h2, hnorm.symm.trans h2⟩

/-- C1 witness: two one-byte buffers with distinct decodings. -/
theorem claim_C1_witness :
    utf8Decode [0] ≠ utf8Decode [1] ∧
    derivePoolStatePDA (fun s => (s.flatten, 255)) [0] [1] 1 1 =
      derivePoolStatePDA (fun s => (s.flatten, 255)) [1] [0] 1 1 :=
  ⟨by decide,
   (claim_C1 (fun s => (s.flatten, 255)) [0] [1] 1 1 (by decide)).1⟩

/-- C1 counterexample: the claim's swap-invariance fails for a concrete
pair of distinct 32-byte addresses.  `32 × 0x80` and `32 × 0xFF` are
byte-lexicographically ordered, but both UTF-8-decode to a string of 32
replacement characters, so the JS comparison used by
`normalizeTokenOrder` calls neither side smaller: the un-swapped and
swapped calls canonicalize to opposite orders and pass different seed
lists to the address derivation (instantiated here with an injective
derivation function). -/
theorem claim_C1_counterexample :
    (List.replicate 32 0x80 : List Nat) ≠ List.replicate 32 0xFF ∧
    utf8Decode (List.replicate 32 0x80) = utf8Decode (List.replicate 32 0xFF) ∧
    normalizeTokenOrder (List.replicate 32 0x80) (List.replicate 32 0xFF) ≠
      normalizeTokenOrder (List.replicate 32 0xFF) (List.replicate 32 0x80) ∧
    derivePoolStatePDA (fun s => (s.flatten, 255)) (List.replicate 32 0x80)
        (List.replicate 32 0xFF) 1 1 ≠
      derivePoolStatePDA (fun s => (s.flatten, 255)) (List.replicate 32 0xFF)
        (List.replicate 32 0x80) 1 1 := by
  set_option maxRecDepth 40000 in
  exact ⟨by decide, by decide, by decide, by decide⟩

/-- UTF-8 of a basic-plane code point takes at most three bytes. -/
theorem cpToUtf8_length_le (cp : Nat) (h : cp < 0x10000) : (cpToUtf8 cp).length ≤ 3 := by
  unfold cpToUtf8
  split_ifs <;> simp_all

/-- UTF-8 of a supplementary-plane code point takes four bytes. -/
theorem cpToUtf8_length_high (cp : Nat) (h : 0x10000 ≤ cp) : (cpToUtf8 cp).length = 4 := by
  unfold cpToUtf8
  rw [if_neg (by omega), if_neg (by omega), if_neg (by omega)]
  rfl

/-- The UTF-8 encoding of a JS string (units below `2^16`) takes at most
three bytes per UTF-16 code unit. -/
theorem utf16ToUtf8_length_le :
    ∀ (fuel : Nat) (units : List Nat), (∀ u ∈ units, u < 0x10000) →
      (utf16ToUtf8 fuel units).length ≤ 3 * units.length := by
  intro fuel
  induction fuel with
  | zero => intro units _; cases units <;> simp [utf16ToUtf8]
  | succ f ih =>
    intro units hu
    cases units with
    | nil => simp [utf16ToUtf8]
    | cons u rest =>
      have hu0 : u < 0x10000 := hu u (List.mem_cons_self u rest)
      have hrest : ∀ v ∈ rest, v < 0x10000 := fun v hv => hu v (List.mem_cons_of_mem u hv)
      have hf : (cpToUtf8 0xFFFD).length ≤ 3 := cpToUtf8_length_le 0xFFFD (by omega)
      simp only [utf16ToUtf8]
      split
      · have h1 := cpToUtf8_length_le u hu0
        have h2 := ih rest hrest
        simp only [List.length_append, List.length_cons]
        omega
      · split
        · split
          · next v r2 =>
            split
            · have h4 : (cpToUtf8 (0x10000 + (u - 0xD800) * 0x400 + (v - 0xDC00))).length = 4 :=
                cpToUtf8_length_high _ (by omega)
              have h5 := ih r2 (fun w hw => hrest w (List.mem_cons_of_mem v hw))
              simp only [List.length_append, List.length_cons] at *
              omega
            · have h5 := ih (v :: r2) hrest
              simp only [List.length_append, List.length_cons] at *
              omega
          · simp only [List.length_cons, List.length_nil]
            omega
        · have h5 := ih rest hrest
          simp only [List.length_append, List.length_cons]
          omega

/-- C2 (amended): the donation payload is exactly opcode 13, the amount
as 8 little-endian bytes, then a 4-byte little-endian length `L`
followed by exactly `L` bytes — but those bytes are the UTF-8 encoding
of the message truncated to at most 200 UTF-16 code units *before*
encoding, so `L` is bounded by 600, not 200. -/
theorem claim_C2 (fpa : Fpa) (donor : List Nat) (amount : Nat) (message : List Nat)
    (hamt : amount < 2 ^ 64) (hmsg : ∀ u ∈ message, u < 0x10000) :
    (createDonateSolInstruction fpa donor amount message).data =
      13 :: (le64 amount ++
        (le32 (jsUtf8Encode (message.take 200)).length ++ jsUtf8Encode (message.take 200))) ∧
    leVal (le64 amount) = amount ∧
    (jsUtf8Encode (message.take 200)).length ≤ 600 := by
  refine ⟨rfl, ?_, ?_⟩
  · simp only [le64, leVal, List.foldr]
    omega
  · have htake : ∀ u ∈ message.take 200, u < 0x10000 :=
      fun u hu => hmsg u (List.mem_of_mem_take hu)
    have hbound := utf16ToUtf8_length_le (message.take 200).length (message.take 200) htake
    have hlen : (message.take 200).length ≤ 200 := by
      rw [List.length_take]; omega
    unfold jsUtf8Encode
    omega

/-- C2 witness: a short ASCII message. -/
theorem claim_C2_witness :
    (createDonateSolInstruction (fun s => (s.flatten, 255)) [7] 5 (strCU (r"hi"))).data =
      13 :: (le64 5 ++
        (le32 (jsUtf8Encode ((strCU (r"hi")).take 200)).length ++
          jsUtf8Encode ((strCU (r"hi")).take 200))) ∧
    leVal (le64 5) = 5 ∧
    (jsUtf8Encode ((strCU (r"hi")).take 200)).length ≤ 600 :=
  claim_C2 (fun s => (s.flatten, 255)) [7] 5 (strCU (r"hi")) (by decide) (by decide)

/-- C2 counterexample: 200 copies of U+00E9 ("é", a 2-byte UTF-8
character) survive `slice(0, 200)` unshortened and encode to 400 bytes,
so the length field is 400 and the claimed 200-byte bound is false. -/
theorem claim_C2_counterexample :
    ((createDonateSolInstruction (fun s => (s.flatten, 255)) [7] 100
        (List.replicate 200 0xE9)).data.drop 9).take 4 = le32 400 ∧
    (jsUtf8Encode ((List.replicate 200 0xE9 : List Nat).take 200)).length = 400 ∧
    ¬ (400 : Nat) ≤ 200 := by
  set_option maxRecDepth 40000 in
  exact ⟨by decide, by decide, by decide⟩

/-- The fuel-indexed binary logarithm brackets its argument. -/
theorem lg2aux_bracket : ∀ (f n : Nat), 1 ≤ n → n ≤ f →
    2 ^ lg2aux f n ≤ n ∧ n < 2 ^ (lg2aux f n + 1) := by
  intro f
  induction f with
  | zero => intro n h1 h2; omega
  | succ f ih =>
    intro n h1 h2
    simp only [lg2aux]
    by_cases h : n ≤ 1
    · rw [if_pos h]
      norm_num
      omega
    · rw [if_neg h]
      obtain ⟨hl, hr⟩ := ih (n / 2) (by omega) (by omega)
      constructor
      · rw [pow_succ]
        omega
      · rw [pow_succ]
        omega

/-- `natLog2` brackets its argument: `2^⌊log₂ n⌋ ≤ n < 2^(⌊log₂ n⌋+1)`. -/
theorem natLog2_bracket (n : Nat) (h : 1 ≤ n) :
    2 ^ natLog2 n ≤ n ∧ n < 2 ^ (natLog2 n + 1) :=
  lg2aux_bracket n n h (le_refl n)

/-- `ratExp` brackets a positive rational in its binade. -/
theorem ratExp_bracket (q : ℚ) (hq : 0 < q) :
    (2:ℚ) ^ ratExp q ≤ q ∧ q < 2 ^ (ratExp q + 1) := by
  have hnum : 0 < q.num := Rat.num_pos.mpr hq
  have ha1 : 1 ≤ q.num.toNat := by omega
  have hb1 : 1 ≤ q.den := q.den_pos
  obtain ⟨haL, haR⟩ := natLog2_bracket q.num.toNat ha1
  obtain ⟨hbL, hbR⟩ := natLog2_bracket q.den hb1
  have hq_eq : q = (q.num.toNat : ℚ) / (q.den : ℚ) := by
    have hcast : ((q.num.toNat : ℤ) : ℚ) = (q.num : ℚ) := by
      rw [Int.toNat_of_nonneg (le_of_lt hnum)]
    push_cast at hcast
    rw [hcast, Rat.num_div_den q]
  have haLq : (2:ℚ) ^ natLog2 q.num.toNat ≤ (q.num.toNat : ℚ) := by exact_mod_cast haL
  have haRq : (q.num.toNat : ℚ) < 2 ^ (natLog2 q.num.toNat + 1) := by exact_mod_cast haR
  have hbLq : (2:ℚ) ^ natLog2 q.den ≤ (q.den : ℚ) := by exact_mod_cast hbL
  have hbRq : (q.den : ℚ) < 2 ^ (natLog2 q.den + 1) := by exact_mod_cast hbR
  have ha0 : (0:ℚ) ≤ (q.num.toNat : ℚ) := by positivity
  have hb0 : (0:ℚ) < (q.den : ℚ) := by exact_mod_cast hb1
  have hup : q < (2:ℚ) ^ (natLog2 q.num.toNat + 1) / 2 ^ natLog2 q.den := by
    calc q = (q.num.toNat : ℚ) / (q.den : ℚ) := hq_eq
      _ ≤ (q.num.toNat : ℚ) / 2 ^ natLog2 q.den := by gcongr
      _ < (2:ℚ) ^ (natLog2 q.num.toNat + 1) / 2 ^ natLog2 q.den := by gcongr
  have hlo : (2:ℚ) ^ natLog2 q.num.toNat / 2 ^ (natLog2 q.den + 1) ≤ q := by
    calc (2:ℚ) ^ natLog2 q.num.toNat / 2 ^ (natLog2 q.den + 1)
        ≤ (q.num.toNat : ℚ) / 2 ^ (natLog2 q.den + 1) := by gcongr
      _ ≤ (q.num.toNat : ℚ) / (q.den : ℚ) := by gcongr
      _ = q := hq_eq.symm
  have key1 : (2:ℚ) ^ (((natLog2 q.num.toNat : ℤ) - (natLog2 q.den : ℤ)) + 1) =
      2 ^ (natLog2 q.num.toNat + 1) / 2 ^ natLog2 q.den := by
    rw [show ((natLog2 q.num.toNat : ℤ) - (natLog2 q.den : ℤ)) + 1 =
      ((natLog2 q.num.toNat + 1 : ℕ) : ℤ) - ((natLog2 q.den : ℕ) : ℤ) from by push_cast; ring]
    rw [zpow_sub₀ two_ne_zero, zpow_natCast, zpow_natCast]
  have key2 : (2:ℚ) ^ (((natLog2 q.num.toNat : ℤ) - (natLog2 q.den : ℤ)) - 1) =
      2 ^ natLog2 q.num.toNat / 2 ^ (natLog2 q.den + 1) := by
    rw [show ((natLog2 q.num.toNat : ℤ) - (natLog2 q.den : ℤ)) - 1 =
      ((natLog2 q.num.toNat : ℕ) : ℤ) - ((natLog2 q.den + 1 : ℕ) : ℤ) from by push_cast; ring]
    rw [zpow_sub₀ two_ne_zero, zpow_natCast, zpow_natCast]
  simp only [ratExp]
  by_cases hif : (2:ℚ) ^ ((natLog2 q.num.toNat : ℤ) - (natLog2 q.den : ℤ)) ≤ q
  · rw [if_pos hif]
    exact ⟨hif, by rw [key1]; exact hup⟩
  · rw [if_neg hif]
    refine ⟨by rw [key2]; exact hlo, ?_⟩
    rw [show (natLog2 q.num.toNat : ℤ) - (natLog2 q.den : ℤ) - 1 + 1 =
      (natLog2 q.num.toNat : ℤ) - (natLog2 q.den : ℤ) from by ring]
    exact lt_of_not_le hif

/-- The binade exponent is the unique bracketing exponent. -/
theorem ratExp_eq_of (q : ℚ) (e : Int) (hq : 0 < q)
    (h1 : (2:ℚ) ^ e ≤ q) (h2 : q < 2 ^ (e + 1)) : ratExp q = e := by
  obtain ⟨hL, hR⟩ := ratExp_bracket q hq
  by_contra hne
  rcases lt_or_gt_of_ne hne with hlt | hgt
  · have hstep : (2:ℚ) ^ (ratExp q + 1) ≤ 2 ^ e := zpow_le_zpow_right₀ one_le_two (by omega)
    exact absurd hR (not_lt.mpr (le_trans hstep h1))
  · have hstep : (2:ℚ) ^ (e + 1) ≤ 2 ^ ratExp q := zpow_le_zpow_right₀ one_le_two (by omega)
    exact absurd h2 (not_lt.mpr (le_trans hstep hL))

/-- Round half to even fixes the integers. -/
theorem roundHalfEven_intCast (k : Int) : roundHalfEven (k : ℚ) = k := by
  unfold roundHalfEven
  rw [Int.floor_intCast, sub_self]
  rw [if_pos (by norm_num : (0:ℚ) < 1/2)]

/-- Binary64 rounding is exact on the naturals below `2^53`. -/
theorem fl_natCast (n : Nat) (h : n < 2 ^ 53) : fl (n : ℚ) = n := by
  rcases Nat.eq_zero_or_pos n with h0 | h0
  · subst h0
    simp [fl]
  · have hq : (0:ℚ) < (n : ℚ) := by exact_mod_cast h0
    have hq1 : (1:ℚ) ≤ (n : ℚ) := by exact_mod_cast h0
    simp only [fl, flPos]
    rw [if_neg (ne_of_gt hq), if_pos hq]
    obtain ⟨hL, hR⟩ := ratExp_bracket (n : ℚ) hq
    have he0 : 0 ≤ ratExp (n : ℚ) := by
      by_contra hneg
      push_neg at hneg
      have hle : (2:ℚ) ^ (ratExp (n : ℚ) + 1) ≤ 1 :=
        zpow_le_one_of_nonpos₀ one_le_two (by omega)
      exact absurd hR (not_lt.mpr (le_trans hle hq1))
    have he52 : ratExp (n : ℚ) ≤ 52 := by
      by_contra hgt
      push_neg at hgt
      have h1 : (2:ℚ) ^ (53:ℤ) ≤ 2 ^ ratExp (n : ℚ) :=
        zpow_le_zpow_right₀ one_le_two (by omega)
      have h2 : ((2 ^ 53 : ℕ) : ℚ) = (2:ℚ) ^ (53:ℤ) := by
        rw [show ((53:ℤ)) = ((53:ℕ) : ℤ) from rfl, zpow_natCast]
        push_cast
        rfl
      have h3 : ((2 ^ 53 : ℕ) : ℚ) ≤ (n : ℚ) := by
        rw [h2]
        exact le_trans h1 hL
      have h4 : (2 ^ 53 : ℕ) ≤ n := by exact_mod_cast h3
      omega
    rw [max_eq_left (by omega)]
    obtain ⟨k, hk⟩ : ∃ k : ℕ, (52:ℤ) - ratExp (n : ℚ) = (k : ℤ) :=
      ⟨(52 - ratExp (n : ℚ)).toNat, (Int.toNat_of_nonneg (by omega)).symm⟩
    have hs : (n : ℚ) * 2 ^ ((52:ℤ) - ratExp (n : ℚ)) = (((n * 2 ^ k : ℕ) : ℤ) : ℚ) := by
      rw [hk, zpow_natCast]
      push_cast
      ring
    rw [hs, roundHalfEven_intCast]
    push_cast
    rw [mul_assoc, show ((2:ℚ) ^ k) = 2 ^ ((52:ℤ) - ratExp (n : ℚ))
      from by rw [hk, zpow_natCast], ← zpow_add₀ (two_ne_zero : (2:ℚ) ≠ 0)]
    rw [show ((52:ℤ) - ratExp (n : ℚ) + (ratExp (n : ℚ) - 52)) = 0 from by ring]
    rw [zpow_zero, mul_one]

/-- `Math.pow(10, 0)` is exactly 1. -/
theorem jsPow10_zero : jsPow10 0 = 1 := by
  unfold jsPow10
  rw [pow_zero, show (1:ℚ) = ((1:ℕ) : ℚ) from rfl, fl_natCast 1 (by norm_num)]

/-- Evaluation rule for `fl` at a positive rational that rounds down:
given the binade exponent, the floor of the scaled significand and a
fraction below one half, the rounded value is `m·2^(e-52)`. -/
theorem fl_eval (q : ℚ) (e m : Int) (hq : 0 < q)
    (h1 : (2:ℚ) ^ e ≤ q) (h2 : q < 2 ^ (e + 1)) (he : (-1022:ℤ) ≤ e)
    (hfl : ⌊q * (2:ℚ) ^ ((52:ℤ) - e)⌋ = m)
    (hfrac : q * (2:ℚ) ^ ((52:ℤ) - e) - (m : ℚ) < 1 / 2) :
    fl q = (m : ℚ) * (2:ℚ) ^ (e - (52:ℤ)) := by
  have hre : ratExp q = e := ratExp_eq_of q e hq h1 h2
  simp only [fl, flPos]
  rw [if_neg (ne_of_gt hq), if_pos hq, hre, max_eq_left he]
  unfold roundHalfEven
  rw [hfl, if_pos hfrac]

/-- C3 (amended): the display round trip is the identity for `decimals
= 0` on every basis-point value below `2^53` (the exact range of both
`BN.toNumber` and integer doubles); for positive `decimals` the
floating-point division and multiplication can round the product below
the integer, so the round trip can lose one unit (see the
counterexample at x = 29, d = 2). -/
theorem claim_C3 (x : Nat) (h : x < 2 ^ 53) :
    toBasisPoints (fromBasisPoints x 0) 0 = x := by
  unfold toBasisPoints fromBasisPoints
  rw [jsPow10_zero, div_one, mul_one, fl_natCast x h, fl_natCast x h]
  exact Int.floor_natCast x

/-- C3 witness at x = 5, d = 0. -/
theorem claim_C3_witness :
    (5 : Nat) < 2 ^ 53 ∧ toBasisPoints (fromBasisPoints 5 0) 0 = 5 :=
  ⟨by decide, claim_C3 5 (by decide)⟩

/-- C3 counterexample: at x = 29, d = 2 the round trip returns 28, not
29 — `29/100` rounds to the double `5224175567749775·2⁻⁵⁴` just below
0.29, and multiplying back by 100 rounds to
`8162774324609023·2⁻⁴⁸ ≈ 28.999999999999996`, whose floor is 28. -/
theorem claim_C3_counterexample :
    toBasisPoints (fromBasisPoints 29 2) 2 = 28 ∧ (28 : Int) ≠ 29 := by
  have hz : ∀ n : ℕ, (2:ℚ) ^ (-(n:ℤ)) = 1 / 2 ^ n := by
    intro n
    rw [zpow_neg, zpow_natCast, one_div]
  have hz2 : ∀ n : ℕ, (2:ℚ) ^ ((n:ℤ)) = 2 ^ n := fun n => zpow_natCast 2 n
  have p10 : jsPow10 2 = 100 := by
    unfold jsPow10
    rw [show ((10:ℚ) ^ (2:ℕ)) = ((100:ℕ) : ℚ) from by norm_num,
      fl_natCast 100 (by norm_num)]
    norm_num
  have e1 : fl ((29 : ℚ) / 100) = (5224175567749775 : ℚ) * 2 ^ ((-54):ℤ) := by
    have := fl_eval ((29 : ℚ) / 100) (-2) 5224175567749775 (by norm_num)
      (by rw [show ((-2):ℤ) = -((2:ℕ):ℤ) from by norm_num, hz]; norm_num)
      (by rw [show ((-2)+1:ℤ) = -((1:ℕ):ℤ) from by norm_num, hz]; norm_num)
      (by norm_num)
      (by
        rw [show ((52:ℤ) - (-2)) = ((54:ℕ):ℤ) from by norm_num, hz2]
        rw [Int.floor_eq_iff]
        constructor <;> norm_num)
      (by
        rw [show ((52:ℤ) - (-2)) = ((54:ℕ):ℤ) from by norm_num, hz2]
        norm_num)
    rw [this]
    norm_num
  have hval : (5224175567749775 : ℚ) * 2 ^ ((-54):ℤ) * 100 =
      522417556774977500 / 2 ^ (54:ℕ) := by
    rw [show ((-54):ℤ) = -((54:ℕ):ℤ) from by norm_num, hz]
    ring
  have e2 : fl ((522417556774977500 : ℚ) / 2 ^ (54:ℕ)) =
      (8162774324609023 : ℚ) * 2 ^ ((-48):ℤ) := by
    have := fl_eval ((522417556774977500 : ℚ) / 2 ^ (54:ℕ)) 4 8162774324609023
      (by positivity)
      (by rw [show ((4):ℤ) = ((4:ℕ):ℤ) from by norm_num, hz2]; rw [le_div_iff₀ (by positivity)]; norm_num)
      (by rw [show ((4)+1:ℤ) = ((5:ℕ):ℤ) from by norm_num, hz2]; rw [div_lt_iff₀ (by positivity)]; norm_num)
      (by norm_num)
      (by
        rw [show ((52:ℤ) - 4) = ((48:ℕ):ℤ) from by norm_num, hz2]
        rw [Int.floor_eq_iff]
        constructor <;> norm_num)
      (by
        rw [show ((52:ℤ) - 4) = ((48:ℕ):ℤ) from by norm_num, hz2]
        norm_num)
    rw [this]
    norm_num
  constructor
  · unfold toBasisPoints fromBasisPoints
    rw [p10]
    rw [show ((29:ℕ):ℚ) = (29:ℚ) from by norm_num]
    rw [e1, hval, e2]
    rw [show ((-48):ℤ) = -((48:ℕ):ℤ) from by norm_num, hz]
    rw [show (8162774324609023 : ℚ) * (1 / 2 ^ (48:ℕ)) = 8162774324609023 / 2 ^ (48:ℕ)
      from by ring]
    rw [Int.floor_eq_iff]
    constructor
    · rw [le_div_iff₀ (by positivity)]
      norm_num
    · rw [div_lt_iff₀ (by positivity)]
      norm_num
  · decide

/-- `getLast?` of a cons, phrased as a match on the tail's `getLast?`. -/
theorem getLast?_cons_match {α : Type} (a : α) (l : List α) :
    (a :: l).getLast? = match l.getLast? with | some v => some v | none => some a := by
  induction l with
  | nil => rfl
  | cons b r _ =>
    rw [List.getLast?_cons_cons]
    cases h : (b :: r).getLast? with
    | none => simp [List.getLast?_eq_none_iff] at h
    | some v => simp

/-- A labelled-field update keeps the old value exactly when the line
contributes nothing. -/
theorem updateField_eq (label log : List Nat) (old : Option Nat) :
    updateField label log old =
      match logNumExtract label log with | some v => some v | none => old := by
  by_cases h : seqContains label log = true
  · simp only [updateField, logNumExtract, if_pos h]
  · simp only [updateField, logNumExtract, if_neg h]

/-- Folding line updates from left to right makes the last contributing
line win: the final field value is the last `some` the extractor
produces, and the initial value when no line contributes. -/
theorem foldl_getter_last {σ α β : Type} (u : σ → β → σ) (g : σ → Option α)
    (ex : β → Option α)
    (hu : ∀ s x, g (u s x) = match ex x with | some v => some v | none => g s) :
    ∀ (xs : List β) (s : σ),
      g (xs.foldl u s) =
        match (xs.filterMap ex).getLast? with | some v => some v | none => g s := by
  intro xs
  induction xs with
  | nil => intro s; rfl
  | cons x rest ih =>
    intro s
    rw [List.foldl_cons, ih (u s x), hu s x]
    cases hx : ex x with
    | none =>
      rw [List.filterMap_cons_none hx]
    | some a =>
      rw [List.filterMap_cons_some hx, getLast?_cons_match]
      cases (rest.filterMap ex).getLast? <;> rfl

/-- When a label occurs in a line, `split(label)` has a second chunk. -/
theorem afterFirst_isSome (label : List Nat) :
    ∀ l, seqContains label l = true → (afterFirst label l).isSome := by
  intro l
  induction l with
  | nil =>
    intro h
    simp only [seqContains] at h
    simp [afterFirst, h]
  | cons c rest ih =>
    intro h
    simp only [seqContains, Bool.or_eq_true] at h
    by_cases hS : seqStartsWith label (c :: rest) = true
    · simp [afterFirst, hS]
    · rcases h with h | h
      · exact absurd h hS
      · simp only [afterFirst, if_neg hS]
        exact ih h

/-- A version-field update keeps the old value exactly when the line
contributes nothing. -/
theorem updateVersionField_eq (label log : List Nat) (old : Option (List Nat)) :
    updateVersionField label log old =
      match logVerExtract label log with | some v => some v | none => old := by
  by_cases h : seqContains label log = true
  · simp only [updateVersionField, logVerExtract, if_pos h]
    obtain ⟨c, hc⟩ := Option.isSome_iff_exists.mp (afterFirst_isSome label log h)
    simp [splitSecond, hc]
  · simp only [updateVersionField, logVerExtract, if_neg h]

/-- C8: the empty log list parses to the all-zero treasury snapshot, and
for every log list, each numeric field whose label occurs in no line
keeps its zero default rather than raising. -/
theorem claim_C8 (logs : List (List Nat)) :
    parseTreasuryInfoFromLogs [] = ⟨0, 0, 0, 0, 0, 0⟩ ∧
    ((∀ l ∈ logs, seqContains (strCU (r"Total Balance:")) l = false) →
      (parseTreasuryInfoFromLogs logs).totalBalance = 0) ∧
    ((∀ l ∈ logs, seqContains (strCU (r"Total Fees Collected:")) l = false) →
      (parseTreasuryInfoFromLogs logs).totalFeesCollected = 0) ∧
    ((∀ l ∈ logs, seqContains (strCU (r"Last Withdrawal:")) l = false) →
      (parseTreasuryInfoFromLogs logs).lastWithdrawalTime = 0) ∧
    ((∀ l ∈ logs, seqContains (strCU (r"Withdrawal Count:")) l = false) →
      (parseTreasuryInfoFromLogs logs).withdrawalCount = 0) ∧
    ((∀ l ∈ logs, seqContains (strCU (r"Donation Count:")) l = false) →
      (parseTreasuryInfoFromLogs logs).donationCount = 0) ∧
    ((∀ l ∈ logs, seqContains (strCU (r"Total Donations:")) l = false) →
      (parseTreasuryInfoFromLogs logs).totalDonations = 0) := by
  have main : ∀ (label : List Nat) (g : PartialTreasuryInfo → Option Nat)
      (hg : ∀ s x, g (updateTreasuryInfo s x) = updateField label x (g s))
      (hinit : g emptyPartialTreasuryInfo = none),
      (∀ l ∈ logs, seqContains label l = false) →
      (g (logs.foldl updateTreasuryInfo emptyPartialTreasuryInfo)).getD 0 = 0 := by
    intro label g hg hinit habs
    have hnil : logs.filterMap (logNumExtract label) = [] := by
      rw [List.filterMap_eq_nil_iff]
      intro a ha
      simp [logNumExtract, habs a ha]
    have h := foldl_getter_last updateTreasuryInfo g (logNumExtract label)
      (fun s x => by rw [hg s x, updateField_eq]; cases logNumExtract label x <;> rfl) logs emptyPartialTreasuryInfo
    rw [hnil] at h
    simp only [List.getLast?_nil] at h
    rw [h, hinit]
    rfl
  refine ⟨rfl, ?_, ?_, ?_, ?_, ?_, ?_⟩ <;>
    intro habs <;>
    simp only [parseTreasuryInfoFromLogs] <;>
    exact main _ _ (fun s x => rfl) rfl habs

/-- C8 witness: a log line with none of the treasury labels. -/
theorem claim_C8_witness :
    (parseTreasuryInfoFromLogs [strCU (r"Program log: hello")]).totalBalance = 0 ∧
    (parseTreasuryInfoFromLogs [strCU (r"Program log: hello")]).withdrawalCount = 0 :=
  ⟨(claim_C8 [strCU (r"Program log: hello")]).2.1 (by decide),
   (claim_C8 [strCU (r"Program log: hello")]).2.2.2.2.1 (by decide)⟩

/-- C10: on duplicate labels the LAST contributing line wins: every
parsed treasury field equals the value extracted from the last line that
matches its label (and the zero default when none does), and every
component of the extracted version record equals the trimmed chunk from
the last line containing its label. -/
theorem claim_C10 (logs : List (List Nat)) :
    (parseTreasuryInfoFromLogs logs).totalBalance =
      ((logs.filterMap (logNumExtract (strCU (r"Total Balance:")))).getLast?).getD 0 ∧
    (parseTreasuryInfoFromLogs logs).totalFeesCollected =
      ((logs.filterMap (logNumExtract (strCU (r"Total Fees Collected:")))).getLast?).getD 0 ∧
    (parseTreasuryInfoFromLogs logs).lastWithdrawalTime =
      ((logs.filterMap (logNumExtract (strCU (r"Last Withdrawal:")))).getLast?).getD 0 ∧
    (parseTreasuryInfoFromLogs logs).withdrawalCount =
      ((logs.filterMap (logNumExtract (strCU (r"Withdrawal Count:")))).getLast?).getD 0 ∧
    (parseTreasuryInfoFromLogs logs).donationCount =
      ((logs.filterMap (logNumExtract (strCU (r"Donation Count:")))).getLast?).getD 0 ∧
    (parseTreasuryInfoFromLogs logs).totalDonations =
      ((logs.filterMap (logNumExtract (strCU (r"Total Donations:")))).getLast?).getD 0 ∧
    (versionInfoFromLogs logs).name =
      (logs.filterMap (logVerExtract (strCU (r"Contract Name:")))).getLast? ∧
    (versionInfoFromLogs logs).version =
      (logs.filterMap (logVerExtract (strCU (r"Contract Version:")))).getLast? ∧
    (versionInfoFromLogs logs).buildDate =
      (logs.filterMap (logVerExtract (strCU (r"Build Date:")))).getLast? ∧
    (versionInfoFromLogs logs).rustVersion =
      (logs.filterMap (logVerExtract (strCU (r"Rust Version:")))).getLast? := by
  have mainT : ∀ (label : List Nat) (g : PartialTreasuryInfo → Option Nat)
      (hg : ∀ s x, g (updateTreasuryInfo s x) = updateField label x (g s))
      (hinit : g emptyPartialTreasuryInfo = none),
      (g (logs.foldl updateTreasuryInfo emptyPartialTreasuryInfo)).getD 0 =
        ((logs.filterMap (logNumExtract label)).getLast?).getD 0 := by
    intro label g hg hinit
    have h := foldl_getter_last updateTreasuryInfo g (logNumExtract label)
      (fun s x => by rw [hg s x, updateField_eq]; cases logNumExtract label x <;> rfl) logs emptyPartialTreasuryInfo
    rw [h, hinit]
    cases (logs.filterMap (logNumExtract label)).getLast? <;> rfl
  have mainV : ∀ (label : List Nat) (g : VersionInfo → Option (List Nat))
      (hg : ∀ s x, g (updateVersionInfo s x) = updateVersionField label x (g s))
      (hinit : g (⟨none, none, none, none⟩ : VersionInfo) = none),
      g (logs.foldl updateVersionInfo ⟨none, none, none, none⟩) =
        (logs.filterMap (logVerExtract label)).getLast? := by
    intro label g hg hinit
    have h := foldl_getter_last updateVersionInfo g (logVerExtract label)
      (fun s x => by rw [hg s x, updateVersionField_eq]; cases logVerExtract label x <;> rfl) logs ⟨none, none, none, none⟩
    rw [h, hinit]
    cases (logs.filterMap (logVerExtract label)).getLast? <;> rfl
  refine ⟨?_, ?_, ?_, ?_, ?_, ?_, ?_, ?_, ?_, ?_⟩ <;>
    first
      | (simp only [parseTreasuryInfoFromLogs]; exact mainT _ _ (fun s x => rfl) rfl)
      | (simp only [versionInfoFromLogs]; exact mainV _ _ (fun s x => rfl) rfl)

/-- C9: with `slippageTolerance` omitted or explicitly `0`, the swap
payload's `minAmountOut` is `applySlippage(expectedAmountOut, 1)` — the
1% default — which differs from `expectedAmountOut` whenever the latter
is positive, so zero slippage cannot be requested through this builder. -/
theorem claim_C9 (fpa : Fpa) (tokenProgramId : List Nat) (p : SwapParams)
    (h : p.slippageTolerance = none ∨ p.slippageTolerance = some 0) :
    (createSwapInstruction fpa tokenProgramId p).data =
      9 :: (p.inputTokenMint ++ le64 p.amountIn ++
        le64 (applySlippage p.expectedAmountOut 1).natAbs) ∧
    (0 < p.expectedAmountOut →
      (applySlippage p.expectedAmountOut 1).natAbs ≠ p.expectedAmountOut) := by
  have htol : swapToleranceOrDefault p = 1 := by
    rcases h with h | h <;> simp [swapToleranceOrDefault, h]
  constructor
  · simp only [createSwapInstruction, htol]
  · intro hpos
    have hval : (applySlippage p.expectedAmountOut 1).natAbs =
        p.expectedAmountOut * 9900 / 10000 := by
      have := applySlippage_formula p.expectedAmountOut 1 (by decide)
      rw [show ((1 : Nat) : Int) = (1 : Int) from rfl] at this
      rw [this, Int.natAbs_ofNat]
    rw [hval]
    have : p.expectedAmountOut * 9900 / 10000 < p.expectedAmountOut :=
      (Nat.div_lt_iff_lt_mul (by norm_num)).mpr
        ((Nat.mul_lt_mul_left hpos).mpr (by norm_num))
    omega

/-- C9 witness at a concrete parameter set. -/
theorem claim_C9_witness :
    (createSwapInstruction (fun s => (s.flatten, 255)) [6] ⟨[1], 3, 1000, [2], [3], [4], [5], some 0⟩).data =
      9 :: ([2] ++ le64 3 ++ le64 (applySlippage 1000 1).natAbs) ∧
    (applySlippage 1000 1).natAbs ≠ 1000 :=
  ⟨(claim_C9 (fun s => (s.flatten, 255)) [6] ⟨[1], 3, 1000, [2], [3], [4], [5], some 0⟩
      (Or.inr rfl)).1,
   (claim_C9 (fun s => (s.flatten, 255)) [6] ⟨[1], 3, 1000, [2], [3], [4], [5], some 0⟩
      (Or.inr rfl)).2 (by decide)⟩

end FRT
